import Mathlib

/-!
Shallow embedding of the `polygon-lookup` library (src/src/index.ts and the
bounding-box utility src/src/utils.ts), together with proofs about its
specification.  Coordinates are modelled as rationals; a GeoJSON position is a
list of coordinates (index access returning `Option` mirrors JavaScript's
`undefined` for out-of-range access).
-/

namespace PolyLookup

/-- A GeoJSON position: `pt[0]` is the x-coordinate, `pt[1]` the y-coordinate.
Modelled as a list so that missing coordinates (JS `undefined`) are expressible. -/
abbrev Position := List ℚ

/-- A linear ring: a list of positions (ring 0 of a polygon is its outer
boundary, later rings are holes). -/
abbrev LinRing := List Position

/-- Geometry of a feature, as in the TypeScript types: either a `Polygon`
(coordinates = list of rings) or a `MultiPolygon` (coordinates = list of
ring-groups). -/
inductive Geometry where
  | polygon (coordinates : List LinRing)
  | multiPolygon (coordinates : List (List LinRing))
deriving DecidableEq, Repr

/-- Caller-supplied feature properties, propagated verbatim and never
inspected by the library. -/
abbrev Properties := List (String × String)

/-- A GeoJSON feature: properties plus an optional geometry (`!poly.geometry`
in the source corresponds to `geometry = none`). -/
structure Feature where
  properties : Properties
  geometry : Option Geometry
deriving DecidableEq, Repr

instance : Inhabited Feature := ⟨⟨[], none⟩⟩

/-- The ring list of a feature typed `Feature<Polygon>` in the source
(`polygon.geometry.coordinates`).  All stored polygons are built with a
`polygon` geometry, so the default branches are unreachable on those. -/
def Feature.polyCoords (f : Feature) : List LinRing :=
  match f.geometry with
  | some (.polygon cs) => cs
  | _ => []

/-- A bounding box as produced by `getBoundingBox`, plus the `polyId`
back-reference attached during indexing (absent until assigned). -/
structure BoundingBox where
  minX : ℚ
  minY : ℚ
  maxX : ℚ
  maxY : ℚ
  polyId : Option Nat := none
deriving DecidableEq, Repr

instance : Inhabited BoundingBox := ⟨⟨0, 0, 0, 0, none⟩⟩

/-- One min/max folding step of `getBoundingBox` (the loop body in
src/src/utils.ts): points whose x or y coordinate is `undefined` are skipped,
otherwise min and max are updated through the `if`/`else if` chain. -/
def bboxStep (bbox : BoundingBox) (pt : Position) : BoundingBox :=
  match pt.get? 0, pt.get? 1 with
  | some x, some y =>
    let b1 :=
      if x < bbox.minX then { bbox with minX := x }
      else if x > bbox.maxX then { bbox with maxX := x }
      else bbox
    if y < b1.minY then { b1 with minY := y }
    else if y > b1.maxY then { b1 with maxY := y }
    else b1
  | _, _ => bbox

/-- `getBoundingBox` from src/src/utils.ts: initialise the box to the first
position, fold the remaining positions with coordinate-wise min/max; throw if
the ring is empty or its first position lacks numeric coordinates. -/
def getBoundingBox (poly : LinRing) : Except String BoundingBox :=
  match poly with
  | [] => .error "getBoundingBox: polygon ring must contain at least one valid point"
  | firstPt :: rest =>
    match firstPt.get? 0, firstPt.get? 1 with
    | some x0, some y0 =>
      .ok (rest.foldl bboxStep { minX := x0, minY := y0, maxX := x0, maxY := y0 })
    | _, _ => .error "getBoundingBox: polygon ring must contain at least one valid point"

/-- Modelled from the spec: the external ray-casting capability
`pointInRing(point, ring) -> bool` (supplied in the repository by
`@turf/boolean-point-in-polygon`, which is excluded from the source as an
external collaborator).  Standard even-odd ray casting over the ring's edges. -/
def pointInRing (point : Position) (ring : LinRing) : Bool :=
  let x := point.getD 0 0
  let y := point.getD 1 0
  (ring.zip (ring.drop 1)).foldl
    (fun inside e =>
      let xi := e.1.getD 0 0
      let yi := e.1.getD 1 0
      let xj := e.2.getD 0 0
      let yj := e.2.getD 1 0
      if (decide (yi > y) != decide (yj > y)) &&
         decide (x < (xj - xi) * (y - yi) / (yj - yi) + xi) then !inside else inside)
    false

/-- The hole loop of `pointInPolygonWithHoles` (src/src/index.ts lines 38-48):
returns `true` as soon as some hole contains the point, scanning holes in index
order and stopping at the first hit. -/
def holeContains (pir : Position → LinRing → Bool) (point : Position) :
    List LinRing → Bool
  | [] => false
  | h :: rest => if pir point h then true else holeContains pir point rest

/-- `pointInPolygonWithHoles` from src/src/index.ts, parametrised by the
external point-in-ring primitive `pir`: false when ring 0 is absent; otherwise
the point must be inside ring 0 and inside none of the remaining rings. -/
def pointInPolygonWithHoles (pir : Position → LinRing → Bool) (point : Position)
    (polygon : Feature) : Bool :=
  match polygon.polyCoords with
  | [] => false
  | mainPolygon :: holes =>
    if pir point mainPolygon then !holeContains pir point holes else false

/-- The spatial-index backend selector (`indexType` option). -/
inductive IndexType where
  | rbush
  | flatbush
deriving DecidableEq, Repr

/-- State of a `PolygonLookup` instance.  The two external index libraries are
modelled from the spec as the list of bounding boxes they were built from: a
query returns every stored box intersecting the query box (this model yields
them in insertion order; the spec leaves the order unspecified). -/
structure PolygonLookup where
  indexType : IndexType
  nodeSize : Option Nat
  rtree : Option (List BoundingBox)
  flatIndex : Option (List BoundingBox)
  bboxData : List BoundingBox
  polygons : List Feature
deriving DecidableEq, Repr

/-- The constructor when no feature collection is passed: nothing is loaded,
both indexes are absent. -/
def mkPolygonLookup (indexType : IndexType) (nodeSize : Option Nat) : PolygonLookup :=
  { indexType := indexType, nodeSize := nodeSize, rtree := none, flatIndex := none,
    bboxData := [], polygons := [] }

/-- `buildRbushIndex`: load the boxes into a fresh mutable index and clear the
other one.  Modelled from the spec: the built index is identified with its box
set. -/
def buildRbushIndex (pl : PolygonLookup) (bboxes : List BoundingBox) : PolygonLookup :=
  { pl with rtree := some bboxes, flatIndex := none }

/-- `buildFlatbushIndex`: add each box's extents (without `polyId`) to a fresh
static index, finish it, and clear the other one.  Modelled from the spec: the
finished index is identified with the list of added extents. -/
def buildFlatbushIndex (pl : PolygonLookup) (bboxes : List BoundingBox) : PolygonLookup :=
  { pl with flatIndex := some (bboxes.map fun b => { b with polyId := none }),
            rtree := none }

/-- Whether a stored box intersects the degenerate query box at `(x, y)`
(the intersection test of both index libraries, boundary-inclusive). -/
def boxContainsPoint (b : BoundingBox) (x y : ℚ) : Bool :=
  decide (b.minX ≤ x) && decide (x ≤ b.maxX) && decide (b.minY ≤ y) && decide (y ≤ b.maxY)

/-- `searchRbush`: empty when no index was built, otherwise every stored box
intersecting the point.  Modelled from the spec: results in insertion order. -/
def searchRbush (pl : PolygonLookup) (x y : ℚ) : List BoundingBox :=
  match pl.rtree with
  | none => []
  | some boxes => boxes.filter (fun b => boxContainsPoint b x y)

/-- `searchFlatbush`: empty when no index was built; otherwise the index
returns the positions of the intersecting extents, which are mapped back to
the stored `bboxData` objects. -/
def searchFlatbush (pl : PolygonLookup) (x y : ℚ) : List BoundingBox :=
  match pl.flatIndex with
  | none => []
  | some fb =>
    (((List.range fb.length).filter fun i =>
        boxContainsPoint (fb.getD i default) x y).map
      fun i => pl.bboxData.getD i default)

/-- The candidate boxes for a query point: dispatch on the backend
(`this.indexType === "flatbush" ? this.searchFlatbush(x, y) : this.searchRbush(x, y)`). -/
def candidateBoxes (pl : PolygonLookup) (x y : ℚ) : List BoundingBox :=
  match pl.indexType with
  | .flatbush => searchFlatbush pl x y
  | .rbush => searchRbush pl x y

/-- `this.polygons[bbox.polyId!]!`: resolve a candidate box to its stored
polygon record. -/
def resolvePoly (pl : PolygonLookup) (b : BoundingBox) : Feature :=
  pl.polygons.getD (b.polyId.getD 0) default

/-- The body of `searchForOnePolygon` applied to an explicit candidate list:
map each candidate to its polygon and return the first one containing the
point. -/
def searchOneOn (pir : Position → LinRing → Bool) (pl : PolygonLookup)
    (point : Position) (cands : List BoundingBox) : Option Feature :=
  (cands.map (resolvePoly pl)).find? (pointInPolygonWithHoles pir point)

/-- `searchForOnePolygon` from src/src/index.ts. -/
def searchForOnePolygon (pir : Position → LinRing → Bool) (pl : PolygonLookup)
    (x y : ℚ) : Option Feature :=
  searchOneOn pir pl [x, y] (candidateBoxes pl x y)

/-- The counting filter of `searchForMultiplePolygons`: scan the candidate
polygons in order with a running match count; once the count reaches
`safeLimit` every remaining element is rejected without evaluating the
containment test. -/
def limitFilter (pir : Position → LinRing → Bool) (point : Position)
    (safeLimit : Int) : List Feature → Nat → List Feature
  | [], _ => []
  | p :: rest, matchesFound =>
    if (matchesFound : Int) ≥ safeLimit then limitFilter pir point safeLimit rest matchesFound
    else if pointInPolygonWithHoles pir point p then
      p :: limitFilter pir point safeLimit rest (matchesFound + 1)
    else limitFilter pir point safeLimit rest matchesFound

/-- The result feature collection (`{type: "FeatureCollection", features}`). -/
structure FCResult where
  features : List Feature
deriving DecidableEq, Repr

/-- `searchForMultiplePolygons` applied to an explicit candidate list. -/
def searchManyOn (pir : Position → LinRing → Bool) (pl : PolygonLookup)
    (point : Position) (limit : Int) (cands : List BoundingBox) : FCResult :=
  let safeLimit : Int := if limit = -1 then 2 ^ 53 - 1 else limit
  ⟨limitFilter pir point safeLimit (cands.map (resolvePoly pl)) 0⟩

/-- `searchForMultiplePolygons` from src/src/index.ts (`Number.MAX_SAFE_INTEGER`
is `2^53 - 1`). -/
def searchForMultiplePolygons (pir : Position → LinRing → Bool) (pl : PolygonLookup)
    (x y : ℚ) (limit : Int) : FCResult :=
  searchManyOn pir pl [x, y] limit (candidateBoxes pl x y)

/-- The two result shapes of the public `search` entry point. -/
inductive SearchResult where
  | one (p : Option Feature)
  | many (fc : FCResult)
deriving DecidableEq, Repr

/-- The public `search(x, y, limit?)`: omitted limit dispatches to
`searchForOnePolygon`, a provided limit to `searchForMultiplePolygons`. -/
def search (pir : Position → LinRing → Bool) (pl : PolygonLookup) (x y : ℚ)
    (limit : Option Int) : SearchResult :=
  match limit with
  | none => .one (searchForOnePolygon pir pl x y)
  | some l => .many (searchForMultiplePolygons pir pl x y l)

/-- The `features` field of an input collection as seen through JavaScript's
checks: absent/falsy, present but not an array, or an actual array of
features. -/
inductive FeaturesField where
  | missing
  | notArray
  | arr (features : List Feature)
deriving DecidableEq, Repr

/-- An input feature collection (possibly malformed). -/
structure CollectionInput where
  features : FeaturesField
deriving DecidableEq, Repr

/-- The local accumulator of `loadFeatureCollection`: the `polygons` and
`bboxes` arrays and the `polyId` counter. -/
structure IndexAcc where
  polygons : List Feature
  bboxes : List BoundingBox
  polyId : Nat
deriving DecidableEq, Repr

/-- `indexPolygon` from src/src/index.ts: push the polygon, then — only if
ring 0 is present — compute its bounding box (which may throw), tag it with
the next `polyId` and push it.  Note the push happens before the ring-0
check. -/
def indexPolygon (acc : IndexAcc) (poly : Feature) : Except String IndexAcc :=
  let acc1 : IndexAcc := { acc with polygons := acc.polygons ++ [poly] }
  match poly.polyCoords.head? with
  | none => .ok acc1
  | some coordinates =>
    match getBoundingBox coordinates with
    | .error e => .error e
    | .ok bbox =>
      .ok { acc1 with
              bboxes := acc1.bboxes ++ [{ bbox with polyId := some acc1.polyId }],
              polyId := acc1.polyId + 1 }

/-- `indexFeature` from src/src/index.ts: skip features whose geometry is
absent or whose `coordinates[0]` is undefined or empty; index a `Polygon`
directly; expand a `MultiPolygon` into one synthesized child polygon per
ring-group, each inheriting the parent's properties. -/
def indexFeature (acc : IndexAcc) (poly : Feature) : Except String IndexAcc :=
  match poly.geometry with
  | none => .ok acc
  | some g =>
    match g with
    | .polygon cs =>
      match cs.head? with
      | none => .ok acc
      | some ring0 =>
        if ring0.length > 0 then indexPolygon acc poly else .ok acc
    | .multiPolygon childPolys =>
      match childPolys.head? with
      | none => .ok acc
      | some group0 =>
        if group0.length > 0 then
          childPolys.foldlM
            (fun a childPolyCoords =>
              indexPolygon a
                { properties := poly.properties,
                  geometry := some (.polygon childPolyCoords) })
            acc
        else .ok acc

/-- `loadFeatureCollection` from src/src/index.ts: validate the collection,
fold `indexFeature` over the features, then store the new polygon array and
box data and build the configured backend's index.  An error is raised before
any instance state is modified. -/
def loadFeatureCollection (pl : PolygonLookup) (collection : Option CollectionInput) :
    Except String PolygonLookup :=
  match collection with
  | none => .error "PolygonLookup.loadFeatureCollection: collection parameter is required"
  | some c =>
    match c.features with
    | .missing =>
      .error "PolygonLookup.loadFeatureCollection: collection must have a 'features' property"
    | .notArray =>
      .error "PolygonLookup.loadFeatureCollection: collection.features must be an array"
    | .arr fs =>
      match fs.foldlM indexFeature ⟨[], [], 0⟩ with
      | .error e => .error e
      | .ok acc =>
        let pl1 : PolygonLookup := { pl with bboxData := acc.bboxes, polygons := acc.polygons }
        .ok (match pl1.indexType with
             | .flatbush => buildFlatbushIndex pl1 acc.bboxes
             | .rbush => buildRbushIndex pl1 acc.bboxes)

/-- A caller that catches a load error keeps using the previous instance
state: the state after an attempted load. -/
def loadOrKeep (pl : PolygonLookup) (collection : Option CollectionInput) : PolygonLookup :=
  match loadFeatureCollection pl collection with
  | .ok pl1 => pl1
  | .error _ => pl

/-- The skip guard of `indexFeature` (src/src/index.ts lines 316-320): the
feature has a geometry whose `coordinates[0]` is defined and non-empty. -/
def featureGuard (f : Feature) : Bool :=
  match f.geometry with
  | none => false
  | some (.polygon cs) =>
    match cs.head? with
    | none => false
    | some ring0 => ring0.length > 0
  | some (.multiPolygon childPolys) =>
    match childPolys.head? with
    | none => false
    | some group0 => group0.length > 0

/-- The first position of the ring exists and has numeric x and y coordinates,
so `getBoundingBox` succeeds on it. -/
def validRingStart (ring : LinRing) : Bool :=
  match ring.head? with
  | none => false
  | some pt => (pt.get? 0).isSome && (pt.get? 1).isSome

/-- Indexing this feature cannot throw: every ring-group it would hand to
`getBoundingBox` starts with a valid position. -/
def indexableFeature (f : Feature) : Bool :=
  match f.geometry with
  | none => true
  | some (.polygon cs) =>
    match cs.head? with
    | none => true
    | some ring0 => ring0.length = 0 || validRingStart ring0
  | some (.multiPolygon childPolys) =>
    childPolys.all fun g =>
      match g.head? with
      | none => true
      | some ring0 => validRingStart ring0

/-! ### Concrete data used in examples, witnesses and counterexamples -/

/-- The example ring of the bounding-box property in the spec. -/
def exRing : LinRing := [[2, 2], [6, 4], [4, 7], [2, 2]]

/-- Outer square `[[0,0],[10,0],[10,10],[0,10],[0,0]]` of the containment
example. -/
def sq : LinRing := [[0, 0], [10, 0], [10, 10], [0, 10], [0, 0]]

/-- Hole `[[2,2],[8,2],[8,8],[2,8],[2,2]]` of the containment example. -/
def sqHole : LinRing := [[2, 2], [8, 2], [8, 8], [2, 8], [2, 2]]

/-- A second hole, used to exhibit hole-scan short-circuiting. -/
def sqHole2 : LinRing := [[3, 3], [4, 3], [4, 4], [3, 4], [3, 3]]

/-- The square-with-hole polygon feature of the containment example. -/
def sqWithHole : Feature := ⟨[], some (.polygon [sq, sqHole])⟩

/-- Unit square ring at the origin. -/
def ringA : LinRing := [[0, 0], [1, 0], [1, 1], [0, 1], [0, 0]]

/-- A square ring away from the origin. -/
def ringB : LinRing := [[10, 10], [12, 10], [12, 12], [10, 12], [10, 10]]

/-- A multi-part feature whose second ring-group is empty (lacks a ring 0):
children are `[ringA]`, `[]`, `[ringB]`. -/
def mpFeat : Feature := ⟨[("n", "mp")], some (.multiPolygon [[ringA], [], [ringB]])⟩

/-- A malformed feature: geometry absent. -/
def badFeat : Feature := ⟨[("n", "bad")], none⟩

/-- A well-formed polygon feature over `ringA`. -/
def goodFeat : Feature := ⟨[("n", "good")], some (.polygon [ringA])⟩

/-- A square ring with corners (0,0) and (2,2). -/
def ringC0 : LinRing := [[0, 0], [2, 0], [2, 2], [0, 2], [0, 0]]

/-- A square ring with corners (0,0) and (3,3); overlaps `ringC0`. -/
def ringC1 : LinRing := [[0, 0], [3, 0], [3, 3], [0, 3], [0, 0]]

/-- Polygon feature over `ringC0`. -/
def featP0 : Feature := ⟨[("n", "p0")], some (.polygon [ringC0])⟩

/-- Polygon feature over `ringC1`. -/
def featP1 : Feature := ⟨[("n", "p1")], some (.polygon [ringC1])⟩

/-- Bounding box of `ringC0`, joined to store position 0. -/
def b0c3 : BoundingBox := ⟨0, 0, 2, 2, some 0⟩

/-- Bounding box of `ringC1`, joined to store position 1. -/
def b1c3 : BoundingBox := ⟨0, 0, 3, 3, some 1⟩

/-- A state holding the two overlapping polygons, as produced by a load of
`[featP0, featP1]` on an rbush-backed instance. -/
def plC3 : PolygonLookup :=
  { indexType := .rbush, nodeSize := none, rtree := some [b0c3, b1c3],
    flatIndex := none, bboxData := [b0c3, b1c3], polygons := [featP0, featP1] }

/-- A fresh rbush-backed instance with nothing loaded. -/
def pl0 : PolygonLookup := mkPolygonLookup .rbush none

/-- The instance state after loading the collection containing only
`mpFeat`. -/
def plC1 : PolygonLookup := loadOrKeep pl0 (some ⟨.arr [mpFeat]⟩)

end PolyLookup

namespace PolyLookup

section ClaimProofs

/- Rational arithmetic is irreducible by default; making it semireducible in
this section keeps concrete instances of the definitions above decidable by
kernel reduction. -/
attribute [local semireducible] Rat.add Rat.sub Rat.mul Rat.inv

/-! ### Helper lemmas -/

theorem holeContains_eq_false_iff (pir : Position → LinRing → Bool) (point : Position) :
    ∀ holes : List LinRing, holeContains pir point holes = false ↔ ∀ h ∈ holes, pir point h = false := by
  intro holes
  induction holes with
  | nil => simp [holeContains]
  | cons h rest ih =>
    by_cases hp : pir point h = true
    · simp [holeContains, hp]
    · simp only [Bool.not_eq_true] at hp
      simp [holeContains, hp, ih]

theorem holeContains_shortCircuit (pir : Position → LinRing → Bool) (point : Position)
    (h : LinRing) (hp : pir point h = true) :
    ∀ pre rest, holeContains pir point (pre ++ h :: rest) = holeContains pir point (pre ++ [h]) := by
  intro pre rest
  induction pre with
  | nil => simp [holeContains, hp]
  | cons a pre ih =>
    by_cases ha : pir point a = true
    · simp [holeContains, ha]
    · simp only [Bool.not_eq_true] at ha
      simpa [holeContains, ha] using ih

theorem foldl_min_le (l : List ℚ) : ∀ a : ℚ, l.foldl min a ≤ a ∧ ∀ q ∈ l, l.foldl min a ≤ q := by
  induction l with
  | nil => simp
  | cons h t ih =>
    intro a
    refine ⟨le_trans (ih (min a h)).1 (min_le_left a h), ?_⟩
    intro q hq
    rcases List.mem_cons.mp hq with rfl | hq
    · exact le_trans (ih (min a q)).1 (min_le_right a q)
    · exact (ih (min a h)).2 q hq

theorem foldl_min_attained (l : List ℚ) : ∀ a : ℚ, l.foldl min a = a ∨ l.foldl min a ∈ l := by
  induction l with
  | nil => simp
  | cons h t ih =>
    intro a
    rcases ih (min a h) with heq | hmem
    · rw [List.foldl_cons, heq]
      rcases min_choice a h with h1 | h1
      · exact Or.inl h1
      · exact Or.inr (by rw [h1]; exact List.mem_cons_self h t)
    · exact Or.inr (List.mem_cons_of_mem h hmem)

theorem foldl_max_ge (l : List ℚ) : ∀ a : ℚ, a ≤ l.foldl max a ∧ ∀ q ∈ l, q ≤ l.foldl max a := by
  induction l with
  | nil => simp
  | cons h t ih =>
    intro a
    refine ⟨le_trans (le_max_left a h) (ih (max a h)).1, ?_⟩
    intro q hq
    rcases List.mem_cons.mp hq with rfl | hq
    · exact le_trans (le_max_right a q) (ih (max a q)).1
    · exact (ih (max a h)).2 q hq

theorem foldl_max_attained (l : List ℚ) : ∀ a : ℚ, l.foldl max a = a ∨ l.foldl max a ∈ l := by
  induction l with
  | nil => simp
  | cons h t ih =>
    intro a
    rcases ih (max a h) with heq | hmem
    · rw [List.foldl_cons, heq]
      rcases max_choice a h with h1 | h1
      · exact Or.inl h1
      · exact Or.inr (by rw [h1]; exact List.mem_cons_self h t)
    · exact Or.inr (List.mem_cons_of_mem h hmem)

/-- On a position with numeric x and y, one `getBoundingBox` step is exactly a
coordinate-wise min/max update, provided the box is consistent. -/
theorem bboxStep_eq (b : BoundingBox) (pt : Position)
    (hx : b.minX ≤ b.maxX) (hy : b.minY ≤ b.maxY)
    (hp : (pt.get? 0).isSome ∧ (pt.get? 1).isSome) :
    bboxStep b pt =
      ⟨min b.minX (pt.getD 0 0), min b.minY (pt.getD 1 0),
       max b.maxX (pt.getD 0 0), max b.maxY (pt.getD 1 0), b.polyId⟩ := by
  obtain ⟨x, hx0⟩ := Option.isSome_iff_exists.mp hp.1
  obtain ⟨y, hy0⟩ := Option.isSome_iff_exists.mp hp.2
  have hgx : pt.getD 0 0 = x := by
    simp [List.getD, ← List.get?_eq_getElem?, hx0]
  have hgy : pt.getD 1 0 = y := by
    simp [List.getD, ← List.get?_eq_getElem?, hy0]
  rw [hgx, hgy]
  unfold bboxStep
  rw [hx0, hy0]
  dsimp only
  have hXa : x < b.minX → min b.minX x = x ∧ max b.maxX x = b.maxX := fun h =>
    ⟨min_eq_right h.le, max_eq_left (le_trans h.le hx)⟩
  have hXb : ¬x < b.minX → x > b.maxX → min b.minX x = b.minX ∧ max b.maxX x = x := fun h h2 =>
    ⟨min_eq_left (le_of_not_lt h), max_eq_right h2.le⟩
  have hXc : ¬x < b.minX → ¬x > b.maxX → min b.minX x = b.minX ∧ max b.maxX x = b.maxX :=
    fun h h2 => ⟨min_eq_left (le_of_not_lt h), max_eq_left (le_of_not_lt h2)⟩
  have hYa : y < b.minY → min b.minY y = y ∧ max b.maxY y = b.maxY := fun h =>
    ⟨min_eq_right h.le, max_eq_left (le_trans h.le hy)⟩
  have hYb : ¬y < b.minY → y > b.maxY → min b.minY y = b.minY ∧ max b.maxY y = y := fun h h2 =>
    ⟨min_eq_left (le_of_not_lt h), max_eq_right h2.le⟩
  have hYc : ¬y < b.minY → ¬y > b.maxY → min b.minY y = b.minY ∧ max b.maxY y = b.maxY :=
    fun h h2 => ⟨min_eq_left (le_of_not_lt h), max_eq_left (le_of_not_lt h2)⟩
  by_cases h1 : x < b.minX
  · by_cases h3 : y < b.minY
    · simp [h1, h3, (hXa h1).1, (hXa h1).2, (hYa h3).1, (hYa h3).2]
    · by_cases h4 : y > b.maxY
      · simp [h1, h3, h4, (hXa h1).1, (hXa h1).2, (hYb h3 h4).1, (hYb h3 h4).2]
      · simp [h1, h3, h4, (hXa h1).1, (hXa h1).2, (hYc h3 h4).1, (hYc h3 h4).2]
  · by_cases h2 : x > b.maxX
    · by_cases h3 : y < b.minY
      · simp [h1, h2, h3, (hXb h1 h2).1, (hXb h1 h2).2, (hYa h3).1, (hYa h3).2]
      · by_cases h4 : y > b.maxY
        · simp [h1, h2, h3, h4, (hXb h1 h2).1, (hXb h1 h2).2, (hYb h3 h4).1, (hYb h3 h4).2]
        · simp [h1, h2, h3, h4, (hXb h1 h2).1, (hXb h1 h2).2, (hYc h3 h4).1, (hYc h3 h4).2]
    · by_cases h3 : y < b.minY
      · simp [h1, h2, h3, (hXc h1 h2).1, (hXc h1 h2).2, (hYa h3).1, (hYa h3).2]
      · by_cases h4 : y > b.maxY
        · simp [h1, h2, h3, h4, (hXc h1 h2).1, (hXc h1 h2).2, (hYb h3 h4).1, (hYb h3 h4).2]
        · simp [h1, h2, h3, h4, (hXc h1 h2).1, (hXc h1 h2).2, (hYc h3 h4).1, (hYc h3 h4).2]

/-- An `Except` value whose option view is `some` is that `ok` value. -/
theorem exceptEqOk {α : Type} {e : Except String α} {b : α}
    (h : e.toOption = some b) : e = .ok b := by
  cases e with
  | ok a => exact congrArg Except.ok (Option.some.inj h)
  | error _ => exact Option.noConfusion h

/-- Closed form of the `getBoundingBox` fold on a consistent box over
positions with numeric coordinates. -/
theorem foldl_bboxStep_closed (rest : List Position) : ∀ b : BoundingBox,
    b.minX ≤ b.maxX → b.minY ≤ b.maxY →
    (∀ pt ∈ rest, (pt.get? 0).isSome ∧ (pt.get? 1).isSome) →
    rest.foldl bboxStep b =
      ⟨(rest.map (fun pt => pt.getD 0 0)).foldl min b.minX,
       (rest.map (fun pt => pt.getD 1 0)).foldl min b.minY,
       (rest.map (fun pt => pt.getD 0 0)).foldl max b.maxX,
       (rest.map (fun pt => pt.getD 1 0)).foldl max b.maxY,
       b.polyId⟩ := by
  induction rest with
  | nil => intro b _ _ _; rfl
  | cons pt rest ih =>
    intro b hx hy hp
    have hstep := bboxStep_eq b pt hx hy (hp pt (List.mem_cons_self pt rest))
    rw [List.foldl_cons, hstep]
    have hx1 : min b.minX (pt.getD 0 0) ≤ max b.maxX (pt.getD 0 0) :=
      le_trans (min_le_left _ _) (le_trans hx (le_max_left _ _))
    have hy1 : min b.minY (pt.getD 1 0) ≤ max b.maxY (pt.getD 1 0) :=
      le_trans (min_le_left _ _) (le_trans hy (le_max_left _ _))
    exact ih _ hx1 hy1 (fun q hq => hp q (List.mem_cons_of_mem pt hq))

/-! ### Claim theorems -/

/-- C7: on a non-empty ring all of whose positions have numeric x and y
coordinates, `getBoundingBox` succeeds with the coordinate-wise minima and
maxima over every vertex (so `minX ≤ maxX` and `minY ≤ maxY`); the spec's
example ring yields `{minX:2, minY:2, maxX:6, maxY:7}`; and it fails with an
error exactly when the ring is empty or its first position lacks an x or y
coordinate. -/
theorem getBoundingBox_spec :
    (∀ ring : LinRing, ring ≠ [] →
      (∀ pt ∈ ring, (pt.get? 0).isSome ∧ (pt.get? 1).isSome) →
      ∃ b, getBoundingBox ring = .ok b ∧
        b.minX ≤ b.maxX ∧ b.minY ≤ b.maxY ∧
        (∀ pt ∈ ring, b.minX ≤ pt.getD 0 0 ∧ pt.getD 0 0 ≤ b.maxX ∧
          b.minY ≤ pt.getD 1 0 ∧ pt.getD 1 0 ≤ b.maxY) ∧
        (∃ pt ∈ ring, pt.getD 0 0 = b.minX) ∧
        (∃ pt ∈ ring, pt.getD 0 0 = b.maxX) ∧
        (∃ pt ∈ ring, pt.getD 1 0 = b.minY) ∧
        (∃ pt ∈ ring, pt.getD 1 0 = b.maxY)) ∧
    getBoundingBox exRing = .ok ⟨2, 2, 6, 7, none⟩ ∧
    (∀ ring : LinRing,
      (∃ e, getBoundingBox ring = .error e) ↔
        (ring = [] ∨ ∃ pt rest, ring = pt :: rest ∧
          (pt.get? 0 = none ∨ pt.get? 1 = none))) := by
  refine ⟨?_, exceptEqOk (by decide), ?_⟩
  · intro ring hne hp
    match ring, hne with
    | firstPt :: rest, _ =>
      obtain ⟨hs0, hs1⟩ := hp firstPt (List.mem_cons_self firstPt rest)
      obtain ⟨x0, hx0⟩ := Option.isSome_iff_exists.mp hs0
      obtain ⟨y0, hy0⟩ := Option.isSome_iff_exists.mp hs1
      have hgx : firstPt.getD 0 0 = x0 := by
        simp [List.getD, ← List.get?_eq_getElem?, hx0]
      have hgy : firstPt.getD 1 0 = y0 := by
        simp [List.getD, ← List.get?_eq_getElem?, hy0]
      have hrest : ∀ pt ∈ rest, (pt.get? 0).isSome ∧ (pt.get? 1).isSome :=
        fun q hq => hp q (List.mem_cons_of_mem firstPt hq)
      have hclosed := foldl_bboxStep_closed rest
        ({ minX := x0, minY := y0, maxX := x0, maxY := y0 } : BoundingBox)
        le_rfl le_rfl hrest
      have hform : getBoundingBox (firstPt :: rest) =
          .ok (rest.foldl bboxStep { minX := x0, minY := y0, maxX := x0, maxY := y0 }) := by
        simp only [getBoundingBox]
        rw [hx0, hy0]
      refine ⟨_, hform, ?_⟩
      rw [hclosed]
      set xs := rest.map (fun pt => pt.getD 0 0) with hxs
      set ys := rest.map (fun pt => pt.getD 1 0) with hys
      dsimp only
      have hminx := foldl_min_le xs x0
      have hminy := foldl_min_le ys y0
      have hmaxx := foldl_max_ge xs x0
      have hmaxy := foldl_max_ge ys y0
      refine ⟨le_trans hminx.1 hmaxx.1, le_trans hminy.1 hmaxy.1, ?_, ?_, ?_, ?_, ?_⟩
      · intro pt hpt
        rcases List.mem_cons.mp hpt with rfl | hpt
        · rw [hgx, hgy]
          exact ⟨hminx.1, hmaxx.1, hminy.1, hmaxy.1⟩
        · have hxmem : pt.getD 0 0 ∈ xs := List.mem_map_of_mem _ hpt
          have hymem : pt.getD 1 0 ∈ ys := List.mem_map_of_mem _ hpt
          exact ⟨hminx.2 _ hxmem, hmaxx.2 _ hxmem, hminy.2 _ hymem, hmaxy.2 _ hymem⟩
      · rcases foldl_min_attained xs x0 with heq | hmem
        · exact ⟨firstPt, List.mem_cons_self firstPt rest, by rw [hgx, heq]⟩
        · obtain ⟨pt, hpt, hval⟩ := List.mem_map.mp hmem
          exact ⟨pt, List.mem_cons_of_mem firstPt hpt, hval⟩
      · rcases foldl_max_attained xs x0 with heq | hmem
        · exact ⟨firstPt, List.mem_cons_self firstPt rest, by rw [hgx, heq]⟩
        · obtain ⟨pt, hpt, hval⟩ := List.mem_map.mp hmem
          exact ⟨pt, List.mem_cons_of_mem firstPt hpt, hval⟩
      · rcases foldl_min_attained ys y0 with heq | hmem
        · exact ⟨firstPt, List.mem_cons_self firstPt rest, by rw [hgy, heq]⟩
        · obtain ⟨pt, hpt, hval⟩ := List.mem_map.mp hmem
          exact ⟨pt, List.mem_cons_of_mem firstPt hpt, hval⟩
      · rcases foldl_max_attained ys y0 with heq | hmem
        · exact ⟨firstPt, List.mem_cons_self firstPt rest, by rw [hgy, heq]⟩
        · obtain ⟨pt, hpt, hval⟩ := List.mem_map.mp hmem
          exact ⟨pt, List.mem_cons_of_mem firstPt hpt, hval⟩
  · intro ring
    cases ring with
    | nil => exact ⟨fun _ => Or.inl rfl, fun _ => ⟨_, rfl⟩⟩
    | cons pt rest =>
      constructor
      · rintro ⟨e, he⟩
        refine Or.inr ⟨pt, rest, rfl, ?_⟩
        by_contra hno
        push_neg at hno
        obtain ⟨x0, hx0⟩ := Option.ne_none_iff_exists.mp hno.1
        obtain ⟨y0, hy0⟩ := Option.ne_none_iff_exists.mp hno.2
        simp only [getBoundingBox] at he
        rw [← hx0, ← hy0] at he
        exact Except.noConfusion he
      · rintro (h | ⟨pt1, rest1, heq, hbad⟩)
        · exact List.noConfusion h
        · injection heq with h1 h2
          subst h1
          subst h2
          rcases hbad with hbad | hbad
          · refine ⟨"getBoundingBox: polygon ring must contain at least one valid point", ?_⟩
            simp only [getBoundingBox]
            rw [hbad]
          · refine ⟨"getBoundingBox: polygon ring must contain at least one valid point", ?_⟩
            simp only [getBoundingBox]
            rw [hbad]
            all_goals first
              | rfl
              | (cases hval : pt.get? 0 <;> rfl)

/-- Witness for C7: the specification instantiated on the spec's example ring. -/
theorem getBoundingBox_spec_witness :
    (exRing ≠ [] ∧ ∀ pt ∈ exRing, (pt.get? 0).isSome ∧ (pt.get? 1).isSome) ∧
    (∃ b, getBoundingBox exRing = .ok b ∧
      b.minX ≤ b.maxX ∧ b.minY ≤ b.maxY ∧
      (∀ pt ∈ exRing, b.minX ≤ pt.getD 0 0 ∧ pt.getD 0 0 ≤ b.maxX ∧
        b.minY ≤ pt.getD 1 0 ∧ pt.getD 1 0 ≤ b.maxY) ∧
      (∃ pt ∈ exRing, pt.getD 0 0 = b.minX) ∧
      (∃ pt ∈ exRing, pt.getD 0 0 = b.maxX) ∧
      (∃ pt ∈ exRing, pt.getD 1 0 = b.minY) ∧
      (∃ pt ∈ exRing, pt.getD 1 0 = b.maxY)) :=
  ⟨⟨by decide, by decide⟩, getBoundingBox_spec.1 exRing (by decide) (by decide)⟩

/-- C6: the point-in-polygon resolver returns true iff the point is inside
ring 0 per the ray-casting primitive and inside none of the remaining rings;
a point outside the outer ring yields false for every hole list alike, and a
hole that contains the point makes the remaining holes irrelevant; on the
square with a hole, (1,1) is contained and (5,5) is not. -/
theorem resolver_holes_spec :
    (∀ (pir : Position → LinRing → Bool) (point : Position) (props : Properties)
        (mainPolygon : LinRing) (holes : List LinRing),
      pointInPolygonWithHoles pir point ⟨props, some (.polygon (mainPolygon :: holes))⟩ = true ↔
        (pir point mainPolygon = true ∧ ∀ h ∈ holes, pir point h = false)) ∧
    (∀ (pir : Position → LinRing → Bool) (point : Position) (props : Properties)
        (mainPolygon : LinRing) (holes : List LinRing),
      pir point mainPolygon = false →
      pointInPolygonWithHoles pir point ⟨props, some (.polygon (mainPolygon :: holes))⟩ = false) ∧
    (∀ (pir : Position → LinRing → Bool) (point : Position) (props : Properties)
        (mainPolygon h : LinRing) (pre rest : List LinRing),
      pir point h = true →
      pointInPolygonWithHoles pir point ⟨props, some (.polygon (mainPolygon :: (pre ++ h :: rest)))⟩ =
        pointInPolygonWithHoles pir point ⟨props, some (.polygon (mainPolygon :: (pre ++ [h])))⟩) ∧
    pointInPolygonWithHoles pointInRing [1, 1] sqWithHole = true ∧
    pointInPolygonWithHoles pointInRing [5, 5] sqWithHole = false := by
  refine ⟨?_, ?_, ?_, by decide, by decide⟩
  · intro pir point props mainPolygon holes
    by_cases hm : pir point mainPolygon = true
    · simp [pointInPolygonWithHoles, Feature.polyCoords, hm, holeContains_eq_false_iff]
    · simp only [Bool.not_eq_true] at hm
      simp [pointInPolygonWithHoles, Feature.polyCoords, hm]
  · intro pir point props mainPolygon holes hm
    simp [pointInPolygonWithHoles, Feature.polyCoords, hm]
  · intro pir point props mainPolygon h pre rest hp
    simp [pointInPolygonWithHoles, Feature.polyCoords,
      holeContains_shortCircuit pir point h hp pre rest]

/-- Witness for C6: instantiates the hypothesis-bearing conjuncts of the
resolver specification on the concrete square-with-hole data. -/
theorem resolver_holes_spec_witness :
    (pointInRing [5, 5] sqHole = true ∧
      pointInPolygonWithHoles pointInRing [5, 5]
          ⟨[], some (.polygon (sq :: ([] ++ sqHole :: [sqHole2])))⟩ =
        pointInPolygonWithHoles pointInRing [5, 5]
          ⟨[], some (.polygon (sq :: ([] ++ [sqHole])))⟩) ∧
    (pointInRing [20, 20] sq = false ∧
      pointInPolygonWithHoles pointInRing [20, 20]
          ⟨[], some (.polygon (sq :: [sqHole]))⟩ = false) :=
  ⟨⟨by decide, resolver_holes_spec.2.2.1 pointInRing [5, 5] [] sq sqHole [] [sqHole2] (by decide)⟩,
   ⟨by decide, resolver_holes_spec.2.1 pointInRing [20, 20] [] sq [sqHole] (by decide)⟩⟩

/-- C10: on an instance constructed without a feature collection, search never
fails: the single-polygon form returns absence and the limited form returns an
empty feature collection, for every point, limit and backend configuration. -/
theorem search_freshInstance (it : IndexType) (ns : Option Nat)
    (pir : Position → LinRing → Bool) (x y : ℚ) (lim : Int) :
    search pir (mkPolygonLookup it ns) x y none = .one none ∧
    search pir (mkPolygonLookup it ns) x y (some lim) = .many ⟨[]⟩ := by
  cases it <;>
    exact ⟨rfl, rfl⟩

/-- C8: loading with an absent collection, or a collection whose features
field is missing or not an array, raises an error; the previous state is kept
untouched, so every subsequent query answers exactly as before. -/
theorem loadFeatureCollection_badInput (pl : PolygonLookup) (c : Option CollectionInput)
    (hbad : c = none ∨ ∃ cc, c = some cc ∧ (cc.features = .missing ∨ cc.features = .notArray)) :
    (∃ e, loadFeatureCollection pl c = .error e) ∧
    loadOrKeep pl c = pl ∧
    (∀ (pir : Position → LinRing → Bool) (x y : ℚ) (lim : Option Int),
      search pir (loadOrKeep pl c) x y lim = search pir pl x y lim) := by
  have herr : ∃ e, loadFeatureCollection pl c = .error e := by
    rcases hbad with rfl | ⟨⟨f⟩, rfl, hf | hf⟩
    · exact ⟨_, rfl⟩
    · obtain rfl : f = .missing := hf
      exact ⟨_, rfl⟩
    · obtain rfl : f = .notArray := hf
      exact ⟨_, rfl⟩
  obtain ⟨e, he⟩ := herr
  have hkeep : loadOrKeep pl c = pl := by simp [loadOrKeep, he]
  exact ⟨⟨e, he⟩, hkeep, fun pir x y lim => by rw [hkeep]⟩

/-- Witness for C8: a missing collection on a fresh instance errors and leaves
the instance state unchanged. -/
theorem loadFeatureCollection_badInput_witness :
    (∃ e, loadFeatureCollection pl0 none = .error e) ∧
    loadOrKeep pl0 none = pl0 ∧
    (∀ (pir : Position → LinRing → Bool) (x y : ℚ) (lim : Option Int),
      search pir (loadOrKeep pl0 none) x y lim = search pir pl0 x y lim) :=
  loadFeatureCollection_badInput pl0 none (Or.inl rfl)

/-- `List.find?` returns exactly the first element satisfying the predicate:
characterisation by position. -/
theorem find?_first_match {α : Type} (p : α → Bool) :
    ∀ (l : List α) (a : α),
      l.find? p = some a ↔
        ∃ i, l.get? i = some a ∧ p a = true ∧
          ∀ j, j < i → ∀ q, l.get? j = some q → p q = false := by
  intro l
  induction l with
  | nil => simp
  | cons h t ih =>
    intro a
    cases hp : p h with
    | true =>
      rw [List.find?_cons_of_pos _ hp]
      constructor
      · rintro he
        have ha : h = a := Option.some.inj he
        exact ⟨0, by rw [ha]; rfl, by rw [← ha]; exact hp, fun j hj => absurd hj (Nat.not_lt_zero j)⟩
      · rintro ⟨i, hg, hpa, hprev⟩
        cases i with
        | zero => exact congrArg some (Option.some.inj hg)
        | succ i =>
          have := hprev 0 (Nat.succ_pos i) h rfl
          rw [hp] at this
          exact Bool.noConfusion this
    | false =>
      rw [List.find?_cons_of_neg _ (by simp [hp])]
      rw [ih a]
      constructor
      · rintro ⟨i, hg, hpa, hprev⟩
        refine ⟨i + 1, by simpa using hg, hpa, ?_⟩
        intro j hj q hq
        cases j with
        | zero =>
          have hhq : h = q := Option.some.inj (by simpa using hq)
          exact hhq ▸ hp
        | succ j => exact hprev j (Nat.lt_of_succ_lt_succ hj) q (by simpa using hq)
      · rintro ⟨i, hg, hpa, hprev⟩
        cases i with
        | zero =>
          have ha : h = a := Option.some.inj hg
          rw [← ha, hp] at hpa
          exact Bool.noConfusion hpa
        | succ i =>
          refine ⟨i, by simpa using hg, hpa, ?_⟩
          intro j hj q hq
          exact hprev (j + 1) (Nat.succ_lt_succ hj) q (by simpa using hq)

/-- C5: with the limit omitted, search scans the candidates in index order,
resolves each `polyId` to its stored polygon, returns the first polygon
containing the point, and returns absence when no candidate contains it. -/
theorem search_noLimit_spec (pir : Position → LinRing → Bool) (pl : PolygonLookup)
    (x y : ℚ) :
    search pir pl x y none = .one (searchForOnePolygon pir pl x y) ∧
    (∀ p, searchForOnePolygon pir pl x y = some p ↔
      ∃ i, ((candidateBoxes pl x y).map (resolvePoly pl)).get? i = some p ∧
        pointInPolygonWithHoles pir [x, y] p = true ∧
        ∀ j, j < i → ∀ q, ((candidateBoxes pl x y).map (resolvePoly pl)).get? j = some q →
          pointInPolygonWithHoles pir [x, y] q = false) ∧
    (searchForOnePolygon pir pl x y = none ↔
      ∀ q ∈ (candidateBoxes pl x y).map (resolvePoly pl),
        pointInPolygonWithHoles pir [x, y] q = false) := by
  refine ⟨rfl, ?_, ?_⟩
  · intro p
    exact find?_first_match (pointInPolygonWithHoles pir [x, y])
      ((candidateBoxes pl x y).map (resolvePoly pl)) p
  · show ((candidateBoxes pl x y).map (resolvePoly pl)).find?
        (pointInPolygonWithHoles pir [x, y]) = none ↔ _
    rw [List.find?_eq_none]
    simp

/-- Once the running count has reached the limit, the counting filter rejects
every remaining candidate (without evaluating the containment test). -/
theorem limitFilter_stops (pir : Position → LinRing → Bool) (point : Position)
    (safeLimit : Int) :
    ∀ (l : List Feature) (cnt : Nat), (cnt : Int) ≥ safeLimit →
      limitFilter pir point safeLimit l cnt = [] := by
  intro l
  induction l with
  | nil => intro cnt _; rfl
  | cons p rest ih =>
    intro cnt hge
    unfold limitFilter
    rw [if_pos hge]
    exact ih cnt hge

/-- The counting filter is an order-preserving filter truncated at the
remaining allowance. -/
theorem limitFilter_eq_take (pir : Position → LinRing → Bool) (point : Position)
    (safeLimit : Int) :
    ∀ (l : List Feature) (cnt : Nat),
      limitFilter pir point safeLimit l cnt =
        (l.filter (pointInPolygonWithHoles pir point)).take (safeLimit - cnt).toNat := by
  intro l
  induction l with
  | nil => intro cnt; simp [limitFilter]
  | cons p rest ih =>
    intro cnt
    by_cases hge : (cnt : Int) ≥ safeLimit
    · rw [limitFilter_stops pir point safeLimit (p :: rest) cnt hge]
      have h0 : (safeLimit - cnt).toNat = 0 := by omega
      rw [h0, List.take_zero]
    · have hlt : (cnt : Int) < safeLimit := lt_of_not_ge hge
      unfold limitFilter
      rw [if_neg hge]
      cases hpi : pointInPolygonWithHoles pir point p with
      | true =>
        rw [if_pos rfl, ih (cnt + 1), List.filter_cons_of_pos hpi]
        have hsucc : (safeLimit - cnt).toNat = (safeLimit - (cnt + 1)).toNat + 1 := by
          omega
        rw [hsucc, List.take_succ_cons]
        norm_cast
      | false =>
        rw [if_neg (by simp), ih cnt, List.filter_cons_of_neg (by simp [hpi])]

/-- C4: with a provided limit, search returns a feature collection whose
features are the containing candidates kept in index order and truncated at
the effective limit (`2^53 - 1`, i.e. unbounded in practice, for `limit = -1`;
the limit itself otherwise); limit 0 gives an empty collection; and once the
limit is reached no further containment test is evaluated (the scan's result
no longer depends on the containment primitive). -/
theorem search_limit_spec (pir : Position → LinRing → Bool) (pl : PolygonLookup)
    (x y : ℚ) (limit : Int) :
    search pir pl x y (some limit) = .many (searchForMultiplePolygons pir pl x y limit) ∧
    (searchForMultiplePolygons pir pl x y limit).features =
      (((candidateBoxes pl x y).map (resolvePoly pl)).filter
          (pointInPolygonWithHoles pir [x, y])).take
        ((if limit = -1 then 2 ^ 53 - 1 else limit).toNat) ∧
    (limit = 0 → (searchForMultiplePolygons pir pl x y limit).features = []) ∧
    (0 ≤ limit →
      ((searchForMultiplePolygons pir pl x y limit).features).length ≤ limit.toNat) ∧
    (limit = -1 →
      (((candidateBoxes pl x y).map (resolvePoly pl)).filter
          (pointInPolygonWithHoles pir [x, y])).length < 2 ^ 53 →
      (searchForMultiplePolygons pir pl x y limit).features =
        ((candidateBoxes pl x y).map (resolvePoly pl)).filter
          (pointInPolygonWithHoles pir [x, y])) ∧
    (∀ (pir2 : Position → LinRing → Bool) (l : List Feature) (cnt : Nat),
      (cnt : Int) ≥ (if limit = -1 then 2 ^ 53 - 1 else limit) →
      limitFilter pir [x, y] (if limit = -1 then 2 ^ 53 - 1 else limit) l cnt =
        limitFilter pir2 [x, y] (if limit = -1 then 2 ^ 53 - 1 else limit) l cnt) := by
  have hfeat : (searchForMultiplePolygons pir pl x y limit).features =
      (((candidateBoxes pl x y).map (resolvePoly pl)).filter
          (pointInPolygonWithHoles pir [x, y])).take
        ((if limit = -1 then 2 ^ 53 - 1 else limit).toNat) := by
    show limitFilter pir [x, y] (if limit = -1 then 2 ^ 53 - 1 else limit)
        ((candidateBoxes pl x y).map (resolvePoly pl)) 0 = _
    rw [limitFilter_eq_take]
    norm_num
  refine ⟨rfl, hfeat, ?_, ?_, ?_, ?_⟩
  · intro h0
    rw [hfeat, h0]
    rfl
  · intro hnn
    rw [hfeat]
    by_cases hm1 : limit = -1
    · omega
    · rw [if_neg hm1]
      exact le_trans (List.length_take ..).le (min_le_left _ _)
  · intro hm1 hlen
    rw [hfeat, if_pos hm1]
    exact List.take_of_length_le (by omega)
  · intro pir2 l cnt hge
    rw [limitFilter_stops pir [x, y] _ l cnt hge, limitFilter_stops pir2 [x, y] _ l cnt hge]

/-- Witness for C4: on the loaded example state, limit 0 yields an empty
collection and limit -1 yields every containing candidate. -/
theorem search_limit_spec_witness :
    (searchForMultiplePolygons pointInRing plC1 11 11 0).features = [] ∧
    ((((candidateBoxes plC1 11 11).map (resolvePoly plC1)).filter
        (pointInPolygonWithHoles pointInRing [11, 11])).length < 2 ^ 53 ∧
      (searchForMultiplePolygons pointInRing plC1 11 11 (-1)).features =
        ((candidateBoxes plC1 11 11).map (resolvePoly plC1)).filter
          (pointInPolygonWithHoles pointInRing [11, 11])) :=
  ⟨(search_limit_spec pointInRing plC1 11 11 0).2.2.1 rfl,
   by decide,
   (search_limit_spec pointInRing plC1 11 11 (-1)).2.2.2.2.1 rfl (by decide)⟩

/-- A feature failing the `indexFeature` guard is skipped: the accumulator is
returned unchanged without an error. -/
theorem indexFeature_skip (acc : IndexAcc) (f : Feature) (h : featureGuard f = false) :
    indexFeature acc f = .ok acc := by
  obtain ⟨props, geom⟩ := f
  cases geom with
  | none => rfl
  | some g =>
    cases g with
    | polygon cs =>
      cases hc : cs.head? with
      | none => simp [indexFeature, hc]
      | some ring0 =>
        have hlen : ¬ring0.length > 0 := by simpa [featureGuard, hc] using h
        simp [indexFeature, hc, hlen]
    | multiPolygon gs =>
      cases hc : gs.head? with
      | none => simp [indexFeature, hc]
      | some g0 =>
        have hlen : ¬g0.length > 0 := by simpa [featureGuard, hc] using h
        simp [indexFeature, hc, hlen]

/-- Folding the feature indexer over a list is the same as folding it over
the guard-passing features only. -/
theorem foldlM_indexFeature_filter (fs : List Feature) :
    ∀ acc, fs.foldlM indexFeature acc = (fs.filter featureGuard).foldlM indexFeature acc := by
  induction fs with
  | nil => intro acc; rfl
  | cons f fs ih =>
    intro acc
    cases hg : featureGuard f with
    | false =>
      rw [List.filter_cons_of_neg (by simp [hg])]
      rw [List.foldlM_cons, indexFeature_skip acc f hg]
      simpa using ih acc
    | true =>
      rw [List.filter_cons_of_pos hg, List.foldlM_cons, List.foldlM_cons]
      cases hr : indexFeature acc f with
      | error e => rfl
      | ok acc1 => simpa using ih acc1

/-- `getBoundingBox` succeeds on a ring whose first position has numeric x
and y coordinates. -/
theorem getBoundingBox_ok_of_validStart (ring : LinRing) (h : validRingStart ring = true) :
    ∃ b, getBoundingBox ring = .ok b := by
  cases ring with
  | nil => exact absurd h (by simp [validRingStart])
  | cons pt rest =>
    have hsome : (pt.get? 0).isSome ∧ (pt.get? 1).isSome := by
      simpa [validRingStart] using h
    obtain ⟨x0, hx0⟩ := Option.isSome_iff_exists.mp hsome.1
    obtain ⟨y0, hy0⟩ := Option.isSome_iff_exists.mp hsome.2
    refine ⟨rest.foldl bboxStep { minX := x0, minY := y0, maxX := x0, maxY := y0 }, ?_⟩
    simp only [getBoundingBox]
    rw [hx0, hy0]

/-- `indexPolygon` succeeds whenever the ring 0 it would measure (if any) has
a valid first position. -/
theorem indexPolygon_ok (acc : IndexAcc) (f : Feature)
    (h : ∀ r0, f.polyCoords.head? = some r0 → validRingStart r0 = true) :
    ∃ acc1, indexPolygon acc f = .ok acc1 := by
  cases hc : f.polyCoords.head? with
  | none =>
    exact ⟨{ acc with polygons := acc.polygons ++ [f] }, by simp [indexPolygon, hc]⟩
  | some r0 =>
    obtain ⟨b, hb⟩ := getBoundingBox_ok_of_validStart r0 (h r0 hc)
    exact ⟨{ polygons := acc.polygons ++ [f],
             bboxes := acc.bboxes ++ [{ b with polyId := some acc.polyId }],
             polyId := acc.polyId + 1 }, by simp [indexPolygon, hc, hb]⟩

/-- The multi-polygon expansion loop succeeds when every ring-group with a
first ring has a valid ring start. -/
theorem foldlM_indexPolygon_ok (props : Properties) (gs : List (List LinRing)) :
    ∀ acc, (∀ g ∈ gs, ∀ r0, g.head? = some r0 → validRingStart r0 = true) →
      ∃ acc1,
        gs.foldlM
          (fun a childPolyCoords =>
            indexPolygon a { properties := props, geometry := some (.polygon childPolyCoords) })
          acc = .ok acc1 := by
  induction gs with
  | nil => intro acc _; exact ⟨acc, rfl⟩
  | cons g gs ih =>
    intro acc hall
    obtain ⟨acc1, h1⟩ := indexPolygon_ok acc
      { properties := props, geometry := some (.polygon g) }
      (fun r0 hr0 => hall g (List.mem_cons_self g gs) r0 hr0)
    obtain ⟨acc2, h2⟩ := ih acc1 (fun q hq => hall q (List.mem_cons_of_mem g hq))
    exact ⟨acc2, by rw [List.foldlM_cons, h1]; simpa using h2⟩

/-- `indexFeature` succeeds on every indexable feature. -/
theorem indexFeature_ok (acc : IndexAcc) (f : Feature)
    (hidx : indexableFeature f = true) :
    ∃ acc1, indexFeature acc f = .ok acc1 := by
  obtain ⟨props, geom⟩ := f
  cases geom with
  | none => exact ⟨acc, rfl⟩
  | some g =>
    cases g with
    | polygon cs =>
      cases hc : cs.head? with
      | none => exact ⟨acc, by simp [indexFeature, hc]⟩
      | some ring0 =>
        by_cases hlen : ring0.length > 0
        · have hval : validRingStart ring0 = true := by
            have h2 := hidx
            simp only [indexableFeature, hc, Bool.or_eq_true, decide_eq_true_eq] at h2
            rcases h2 with h0 | hv
            · exact absurd hlen (by omega)
            · exact hv
          obtain ⟨acc1, h1⟩ := indexPolygon_ok acc ⟨props, some (.polygon cs)⟩
            (fun r0 hr0 => by
              have hre : ring0 = r0 := by
                simpa [Feature.polyCoords, hc] using hr0
              rw [← hre]
              exact hval)
          exact ⟨acc1, by simpa [indexFeature, hc, hlen] using h1⟩
        · exact ⟨acc, by simp [indexFeature, hc, hlen]⟩
    | multiPolygon gs =>
      cases hc : gs.head? with
      | none => exact ⟨acc, by simp [indexFeature, hc]⟩
      | some g0 =>
        by_cases hlen : g0.length > 0
        · have hall : ∀ g ∈ gs, ∀ r0, g.head? = some r0 → validRingStart r0 = true := by
            intro g hg r0 hr0
            have := hidx
            simp only [indexableFeature] at this
            have hga := List.all_eq_true.mp this g hg
            rw [hr0] at hga
            exact hga
          obtain ⟨acc1, h1⟩ := foldlM_indexPolygon_ok props gs acc hall
          exact ⟨acc1, by simpa [indexFeature, hc, hlen] using h1⟩
        · exact ⟨acc, by simp [indexFeature, hc, hlen]⟩

/-- The whole indexing fold succeeds when every guard-passing feature is
indexable. -/
theorem foldlM_indexFeature_ok (fs : List Feature) :
    ∀ acc, (∀ f ∈ fs, featureGuard f = true → indexableFeature f = true) →
      ∃ acc1, fs.foldlM indexFeature acc = .ok acc1 := by
  induction fs with
  | nil => intro acc _; exact ⟨acc, rfl⟩
  | cons f fs ih =>
    intro acc hall
    cases hg : featureGuard f with
    | false =>
      rw [List.foldlM_cons, indexFeature_skip acc f hg]
      obtain ⟨acc1, h1⟩ := ih acc (fun q hq => hall q (List.mem_cons_of_mem f hq))
      exact ⟨acc1, by simpa using h1⟩
    | true =>
      obtain ⟨acc1, h1⟩ := indexFeature_ok acc f (hall f (List.mem_cons_self f fs) hg)
      obtain ⟨acc2, h2⟩ := ih acc1 (fun q hq => hall q (List.mem_cons_of_mem f hq))
      rw [List.foldlM_cons, h1]
      exact ⟨acc2, by simpa using h2⟩

/-- C2: features whose geometry is absent or whose primary ring is absent or
empty are skipped silently — loading a collection is identical to loading the
collection restricted to the guard-passing features — and when the surviving
features are indexable the load succeeds (returns ok, so no error is
raised). -/
theorem loadFeatureCollection_skips_malformed (pl : PolygonLookup) (fs : List Feature) :
    loadFeatureCollection pl (some ⟨.arr fs⟩) =
      loadFeatureCollection pl (some ⟨.arr (fs.filter featureGuard)⟩) ∧
    ((∀ f ∈ fs, featureGuard f = true → indexableFeature f = true) →
      ∃ pl1, loadFeatureCollection pl (some ⟨.arr fs⟩) = .ok pl1) := by
  constructor
  · simp only [loadFeatureCollection]
    rw [foldlM_indexFeature_filter fs]
  · intro hall
    obtain ⟨acc1, h1⟩ := foldlM_indexFeature_ok fs ⟨[], [], 0⟩ hall
    refine ⟨(match pl.indexType with
             | .flatbush =>
               buildFlatbushIndex
                 { pl with bboxData := acc1.bboxes, polygons := acc1.polygons } acc1.bboxes
             | .rbush =>
               buildRbushIndex
                 { pl with bboxData := acc1.bboxes, polygons := acc1.polygons } acc1.bboxes), ?_⟩
    simp only [loadFeatureCollection]
    rw [h1]

/-- Witness for C2: a collection with one geometry-less feature and one valid
polygon loads successfully, identically to the collection with the malformed
feature dropped, and the valid polygon is queryable. -/
theorem loadFeatureCollection_skips_malformed_witness :
    (loadFeatureCollection pl0 (some ⟨.arr [badFeat, goodFeat]⟩) =
      loadFeatureCollection pl0 (some ⟨.arr ([badFeat, goodFeat].filter featureGuard)⟩) ∧
    (∃ pl1, loadFeatureCollection pl0 (some ⟨.arr [badFeat, goodFeat]⟩) = .ok pl1)) ∧
    (searchForOnePolygon pointInRing
        (loadOrKeep pl0 (some ⟨.arr [badFeat, goodFeat]⟩)) (1/2) (1/2) = some goodFeat) :=
  ⟨⟨(loadFeatureCollection_skips_malformed pl0 [badFeat, goodFeat]).1,
    (loadFeatureCollection_skips_malformed pl0 [badFeat, goodFeat]).2 (by decide)⟩,
   by decide⟩

/-- C9: reload is idempotent: if a load of collection `c` produced state
`pl1`, loading `c` again on `pl1` yields exactly `pl1` back (the polyId
assignment and both stores are regenerated identically), so every subsequent
search answers as after the single load. -/
theorem loadFeatureCollection_idempotent (pl pl1 : PolygonLookup)
    (c : Option CollectionInput) (h : loadFeatureCollection pl c = .ok pl1) :
    loadFeatureCollection pl1 c = .ok pl1 ∧
    (∀ (pir : Position → LinRing → Bool) (x y : ℚ) (lim : Option Int),
      search pir (loadOrKeep pl1 c) x y lim = search pir pl1 x y lim) := by
  have hre : loadFeatureCollection pl1 c = .ok pl1 := by
    match c with
    | none => simp [loadFeatureCollection] at h
    | some ⟨.missing⟩ => simp [loadFeatureCollection] at h
    | some ⟨.notArray⟩ => simp [loadFeatureCollection] at h
    | some ⟨.arr fs⟩ =>
      simp only [loadFeatureCollection] at h ⊢
      cases hf : List.foldlM indexFeature ({ polygons := [], bboxes := [], polyId := 0 } : IndexAcc) fs with
      | error e => rw [hf] at h; exact Except.noConfusion h
      | ok acc =>
        rw [hf] at h
        obtain rfl := Except.ok.inj h
        cases hty : pl.indexType with
        | rbush => simp [hty, buildRbushIndex, buildFlatbushIndex]
        | flatbush => simp [hty, buildRbushIndex, buildFlatbushIndex]
  have hkeep : loadOrKeep pl1 c = pl1 := by simp [loadOrKeep, hre]
  exact ⟨hre, fun pir x y lim => by rw [hkeep]⟩

/-- Witness for C9: loading the example collection twice from the example
state reproduces the state of the single load. -/
theorem loadFeatureCollection_idempotent_witness :
    loadFeatureCollection pl0 (some ⟨.arr [mpFeat]⟩) = .ok plC1 ∧
    loadFeatureCollection plC1 (some ⟨.arr [mpFeat]⟩) = .ok plC1 :=
  have h : loadFeatureCollection pl0 (some ⟨.arr [mpFeat]⟩) = .ok plC1 :=
    exceptEqOk (by decide)
  ⟨h, (loadFeatureCollection_idempotent pl0 plC1 (some ⟨.arr [mpFeat]⟩) h).1⟩

/-- C1 (violated by the code): on a multi-part feature whose second
ring-group is empty, the polygon store and the index disagree on `polyId`
numbering: three polygon records are stored, but the box produced from
`ringB` carries `polyId = 1`, and `polygons[1]` is the degenerate child with
empty coordinates rather than the polygon whose ring 0 produced the box
(which sits at position 2); consequently a query at a point inside `ringB`
finds nothing. -/
theorem polyId_misalignment_on_degenerate_child :
    loadFeatureCollection pl0 (some ⟨.arr [mpFeat]⟩) = .ok plC1 ∧
    plC1.polygons.length = 3 ∧
    plC1.bboxData.length = 2 ∧
    (plC1.bboxData.getD 1 default).polyId = some 1 ∧
    getBoundingBox ringB =
      .ok { minX := (plC1.bboxData.getD 1 default).minX,
            minY := (plC1.bboxData.getD 1 default).minY,
            maxX := (plC1.bboxData.getD 1 default).maxX,
            maxY := (plC1.bboxData.getD 1 default).maxY } ∧
    (plC1.polygons.getD 1 default).polyCoords = [] ∧
    (plC1.polygons.getD 2 default).polyCoords = [ringB] ∧
    pointInRing [11, 11] ringB = true ∧
    boxContainsPoint (plC1.bboxData.getD 1 default) 11 11 = true ∧
    searchForOnePolygon pointInRing plC1 11 11 = none :=
  ⟨exceptEqOk (by decide), by decide, by decide, by decide, exceptEqOk (by decide),
   by decide, by decide, by decide, by decide, by decide⟩

/-- C3 (counterexample): two candidate sequences that are both conformant
query answers for the same stored boxes at the same point — each a
permutation of the boxes intersecting the query — give different results to
the single-polygon search: the backend-dependent candidate order changes
which overlapping polygon is returned. -/
theorem backend_order_changes_result :
    ([b0c3, b1c3].Perm ([b0c3, b1c3].filter (fun b => boxContainsPoint b 1 1)) ∧
     [b1c3, b0c3].Perm ([b0c3, b1c3].filter (fun b => boxContainsPoint b 1 1))) ∧
    searchOneOn pointInRing plC3 [1, 1] [b0c3, b1c3] ≠
      searchOneOn pointInRing plC3 [1, 1] [b1c3, b0c3] := by
  refine ⟨⟨?_, ?_⟩, by decide⟩
  · have hf : [b0c3, b1c3].filter (fun b => boxContainsPoint b 1 1) = [b0c3, b1c3] := by
      decide
    rw [hf]
  · have hf : [b0c3, b1c3].filter (fun b => boxContainsPoint b 1 1) = [b0c3, b1c3] := by
      decide
    rw [hf]
    exact List.Perm.swap b0c3 b1c3 []

theorem find?_isSome_exists {α : Type} (p : α → Bool) (l : List α) :
    (l.find? p).isSome ↔ ∃ a ∈ l, p a = true := by
  induction l with
  | nil => simp
  | cons h t ih =>
    cases hp : p h with
    | true => simp [List.find?_cons_of_pos _ hp, hp]
    | false =>
      rw [List.find?_cons_of_neg _ (by simp [hp])]
      simp only [ih, List.mem_cons]
      constructor
      · rintro ⟨a, ha, hpa⟩
        exact ⟨a, Or.inr ha, hpa⟩
      · rintro ⟨a, rfl | ha, hpa⟩
        · rw [hp] at hpa
          exact Bool.noConfusion hpa
        · exact ⟨a, ha, hpa⟩

/-- C3 (amended): the backend choice never changes the candidate set: for any
two conformant candidate orders (permutations of one another, as any two
conformant answers over the same stored boxes are), the searches agree on
whether some polygon is found, and the unlimited multi-result searches agree
up to permutation; only the order-sensitive outcomes (which polygon
`search(x,y)` returns, which subset survives a finite limit) may differ. -/
theorem search_backend_set_invariance (pir : Position → LinRing → Bool)
    (pl : PolygonLookup) (point : Position) (candsA candsB : List BoundingBox)
    (hperm : candsA.Perm candsB) (hlen : candsA.length < 2 ^ 53) :
    ((searchOneOn pir pl point candsA).isSome ↔
      (searchOneOn pir pl point candsB).isSome) ∧
    ((searchManyOn pir pl point (-1) candsA).features).Perm
      ((searchManyOn pir pl point (-1) candsB).features) := by
  constructor
  · rw [searchOneOn, searchOneOn, find?_isSome_exists, find?_isSome_exists]
    constructor
    · rintro ⟨a, ha, hpa⟩
      exact ⟨a, ((hperm.map (resolvePoly pl)).mem_iff).mp ha, hpa⟩
    · rintro ⟨a, ha, hpa⟩
      exact ⟨a, ((hperm.map (resolvePoly pl)).mem_iff).mpr ha, hpa⟩
  · have hA : (searchManyOn pir pl point (-1) candsA).features =
        (candsA.map (resolvePoly pl)).filter (pointInPolygonWithHoles pir point) := by
      show limitFilter pir point (2 ^ 53 - 1) (candsA.map (resolvePoly pl)) 0 = _
      rw [limitFilter_eq_take]
      refine List.take_of_length_le ?_
      have h1 := List.length_filter_le (pointInPolygonWithHoles pir point)
        (candsA.map (resolvePoly pl))
      simp only [List.length_map] at h1
      omega
    have hB : (searchManyOn pir pl point (-1) candsB).features =
        (candsB.map (resolvePoly pl)).filter (pointInPolygonWithHoles pir point) := by
      show limitFilter pir point (2 ^ 53 - 1) (candsB.map (resolvePoly pl)) 0 = _
      rw [limitFilter_eq_take]
      refine List.take_of_length_le ?_
      have h1 := List.length_filter_le (pointInPolygonWithHoles pir point)
        (candsB.map (resolvePoly pl))
      have h2 : candsB.length = candsA.length := (hperm.length_eq).symm
      simp only [List.length_map] at h1
      omega
    rw [hA, hB]
    exact (hperm.map (resolvePoly pl)).filter (pointInPolygonWithHoles pir point)

/-- Witness for the amended C3: instantiated on the two conformant candidate
orders of the counterexample state. -/
theorem search_backend_set_invariance_witness :
    ([b0c3, b1c3].Perm [b1c3, b0c3] ∧ [b0c3, b1c3].length < 2 ^ 53) ∧
    (((searchOneOn pointInRing plC3 [1, 1] [b0c3, b1c3]).isSome ↔
        (searchOneOn pointInRing plC3 [1, 1] [b1c3, b0c3]).isSome) ∧
      ((searchManyOn pointInRing plC3 [1, 1] (-1) [b0c3, b1c3]).features).Perm
        ((searchManyOn pointInRing plC3 [1, 1] (-1) [b1c3, b0c3]).features)) :=
  ⟨⟨List.Perm.swap b1c3 b0c3 [], by decide⟩,
   search_backend_set_invariance pointInRing plC3 [1, 1] [b0c3, b1c3] [b1c3, b0c3]
     (List.Perm.swap b1c3 b0c3 []) (by decide)⟩

end ClaimProofs

end PolyLookup
